import Mathlib

/-!
Verification development for the `nu_plugin_from_hdf5` plugin
(`src/from_hdf5.rs`, `src/main.rs`, `src/hdf5_ext.rs`).

The development shallowly embeds the type-driven binary decoder
(`to_value`), the tree builder (`to_list`, `to_record`, `strip_name`) and
the command entry points (`run` in `from_hdf5.rs`, `Plugin::run` in
`main.rs`).

Modelling conventions:
* Byte buffers are `List Nat`, each element intended `< 256`; the model
  fixes the plugin's build target to a 64-bit little-endian machine
  (x86-64), so "native byte order" is little-endian, a variable-length
  string indirection record (`hdf5::types::VarLenAscii` /
  `VarLenUnicode`, one raw pointer) is 8 bytes and a variable-length
  array indirection record (`hvl_t`: length + pointer) is 16 bytes.
* Rust panics (`assert_eq!`, `slice::chunks` with chunk size 0, slice
  indexing out of bounds) and undefined behaviour (reading an invalid
  `bool` via `ptr::read_unaligned`, raw reads past the end of the slice)
  abort the decode; the embedding returns them as distinguished
  `DecodeError` values so that "fails and produces no partial value" is
  expressible.
* The HDF5 engine (the `hdf5` crate plus the C library) is external to
  the repository: dereferencing the heap pointer held by a
  variable-length indirection record is modelled by an `Engine` record
  of resolution functions, and the bytes/descriptors the engine hands to
  the tree builder are stored in the `DatasetNode`/`GroupNode` views.
  Object names stored in those views are the names returned by the
  engine's `Object::name` (`H5Iget_name`), i.e. absolute slash-separated
  paths such as "/g/y" — which is why the source's `strip_name` strips a
  leading '/'.
* `nu_protocol::Span` values are not modelled: `to_value` threads one
  unchanged span through every node, so spans carry no information.
-/

/-- `hdf5::types::IntSize`: the byte width of an integer type. -/
inductive IntSize where
  | U1 | U2 | U4 | U8
deriving DecidableEq, Repr

/-- The number of bytes of an `IntSize` (its `as usize` value). -/
def IntSize.bytes : IntSize → Nat
  | .U1 => 1
  | .U2 => 2
  | .U4 => 4
  | .U8 => 8

/-- `hdf5::types::FloatSize`: the byte width of a float type. -/
inductive FloatSize where
  | U4 | U8
deriving DecidableEq, Repr

/-- The number of bytes of a `FloatSize`. -/
def FloatSize.bytes : FloatSize → Nat
  | .U4 => 4
  | .U8 => 8

/-- `hdf5::types::EnumMember`: a symbolic name with its backing value. -/
structure EnumMember where
  name : String
  value : Nat
deriving DecidableEq, Repr

/-- `hdf5::types::EnumType`: backing integer width, signedness, and the
symbolic member table. -/
structure EnumType where
  size : IntSize
  signed : Bool
  members : List EnumMember
deriving DecidableEq, Repr

/-- `hdf5::types::TypeDescriptor`.  A compound field
`hdf5::types::CompoundField { name, ty, offset }` is inlined as the
triple `(name, offset, ty)`; `hdf5::types::CompoundType { fields, size }`
is inlined as the two arguments of the `compound` constructor. -/
inductive TypeDescriptor where
  | integer (size : IntSize)
  | unsigned (size : IntSize)
  | float (size : FloatSize)
  | boolean
  | enum (ty : EnumType)
  | compound (fields : List (String × Nat × TypeDescriptor)) (size : Nat)
  | fixedArray (ty : TypeDescriptor) (len : Nat)
  | fixedAscii (len : Nat)
  | fixedUnicode (len : Nat)
  | varLenArray (ty : TypeDescriptor)
  | varLenAscii
  | varLenUnicode

/-- `hdf5::types::TypeDescriptor::size`: the declared byte size of a
descriptor.  On the modelled 64-bit target `size_of::<hvl_t>() = 16` and
a variable-length string is one raw pointer, 8 bytes. -/
def TypeDescriptor.size : TypeDescriptor → Nat
  | .integer s => s.bytes
  | .unsigned s => s.bytes
  | .float s => s.bytes
  | .boolean => 1
  | .enum ty => ty.size.bytes
  | .compound _ size => size
  | .fixedArray ty len => ty.size * len
  | .fixedAscii len => len
  | .fixedUnicode len => len
  | .varLenArray _ => 16
  | .varLenAscii => 8
  | .varLenUnicode => 8

/-- The three variable-length descriptor variants: their slices hold an
indirection record, and the source performs no length assertion on them. -/
def TypeDescriptor.isVarLen : TypeDescriptor → Bool
  | .varLenArray _ => true
  | .varLenAscii => true
  | .varLenUnicode => true
  | _ => false

/-- The subset of `nu_protocol::Value` produced or consumed by the
plugin.  `float` carries the raw IEEE-754 binary64 bit pattern of the
Rust `f64`; `binary` is the input variant matched by the entry points.
Spans are omitted (see module comment). -/
inductive Value where
  | int (val : Int)
  | float (bits : Nat)
  | bool (val : Bool)
  | string (val : String)
  | binary (val : List Nat)
  | list (vals : List Value)
  | record (val : List (String × Value))

/-- How a decode call can abort.  `sizeMismatch` is an `assert_eq!` on a
declared size versus a measured slice length; `countMismatch` is the
`assert_eq!(vals.len(), dataset.size())` in `to_list`; `panicked` covers
the remaining panics (`slice::chunks` with chunk size 0, slice indexing
out of bounds); `undefinedBehavior` marks executions that are undefined
in the source (reading a `bool` byte other than 0/1, raw reads past the
end of the slice, dereferencing an invalid indirection record). -/
inductive DecodeError where
  | sizeMismatch
  | countMismatch
  | panicked
  | undefinedBehavior
deriving DecidableEq, Repr

/-- The external HDF5 engine's heap, abstracted: given the bytes of an
indirection record, resolve it to the variable-length payload it points
to (`none` models an invalid pointer, whose dereference is undefined). -/
structure Engine where
  resolveVarLenArray : List Nat → Option (List Nat)
  resolveVarLenAscii : List Nat → Option String
  resolveVarLenUnicode : List Nat → Option String

/-- A trivial engine instance used for concrete evaluations that do not
touch variable-length data. -/
def defaultEngine : Engine where
  resolveVarLenArray := fun _ => none
  resolveVarLenAscii := fun _ => none
  resolveVarLenUnicode := fun _ => none

/-- Little-endian value of a byte list: the unsigned integer that
`ptr::read_unaligned` yields on the modelled little-endian target. -/
def leRead : List Nat → Nat
  | [] => 0
  | b :: rest => b + 256 * leRead rest

/-- Two's-complement reinterpretation of an unsigned `bits`-bit value as
a signed integer (the effect of an `as iN` cast of the same width,
and of sign-extension to `i64` afterwards). -/
def toSigned (n : Nat) (bits : Nat) : Int :=
  if n < 2 ^ (bits - 1) then (n : Int) else (n : Int) - 2 ^ bits

/-- The IEEE-754 widening `f32 → f64` (`as f64`), on bit patterns, as
performed by x86-64 `cvtss2sd`: normals are re-biased, subnormals are
normalised, infinities map to infinities, and NaNs keep their shifted
payload with the quiet bit forced. -/
def f32ToF64Bits (b : Nat) : Nat :=
  let sign := b / 2 ^ 31 % 2
  let exp := b / 2 ^ 23 % 256
  let frac := b % 2 ^ 23
  if exp = 255 then
    if frac = 0 then sign * 2 ^ 63 + 2047 * 2 ^ 52
    else sign * 2 ^ 63 + 2047 * 2 ^ 52 + (frac * 2 ^ 29 ||| 2 ^ 51)
  else if exp = 0 then
    if frac = 0 then sign * 2 ^ 63
    else
      let msb := Nat.log2 frac
      sign * 2 ^ 63 + (msb + 874) * 2 ^ 52 + (frac - 2 ^ msb) * 2 ^ (52 - msb)
  else sign * 2 ^ 63 + (exp + 896) * 2 ^ 52 + frac * 2 ^ 29

/-- `&slice[o .. o + s]` after the bounds check has passed. -/
def extractWindow (slice : List Nat) (o s : Nat) : List Nat :=
  (slice.drop o).take s

/-- `slice::chunks n`: consecutive chunks of length `n`, the last one
possibly shorter.  Only meaningful for `0 < n` (the source panics on
`n = 0`, which the decoder reports before ever calling this). -/
def chunksList (n : Nat) : List Nat → List (List Nat)
  | [] => []
  | b :: rest => (b :: rest).take n :: chunksList n ((b :: rest).drop (max n 1))
termination_by l => l.length
decreasing_by
  simp [List.length_drop]

/-- Whether a byte is a UTF-8 continuation byte (`0x80 ..= 0xBF`). -/
def isCont (b : Nat) : Bool := 128 ≤ b && b ≤ 191

/-- The valid range of the second byte of a multi-byte UTF-8 sequence,
given its lead byte (per the WHATWG/Unicode table used by Rust). -/
def validSecond (lead b : Nat) : Bool :=
  if lead = 224 then 160 ≤ b && b ≤ 191
  else if lead = 237 then 128 ≤ b && b ≤ 159
  else if lead = 240 then 144 ≤ b && b ≤ 191
  else if lead = 244 then 128 ≤ b && b ≤ 143
  else isCont b

/-- The replacement character U+FFFD. -/
def replChar : Char := Char.ofNat 0xFFFD

/-- `String::from_utf8_lossy` on a byte list: UTF-8 decoding with each
maximal invalid subpart replaced by one U+FFFD (the substitution policy
Rust implements). -/
def utf8LossyChars : List Nat → List Char
  | [] => []
  | b :: rest =>
    if b < 128 then Char.ofNat b :: utf8LossyChars rest
    else if b < 194 then replChar :: utf8LossyChars rest
    else if b ≤ 223 then
      match rest with
      | [] => [replChar]
      | b1 :: rest1 =>
        if isCont b1 then
          Char.ofNat ((b - 192) * 64 + (b1 - 128)) :: utf8LossyChars rest1
        else replChar :: utf8LossyChars (b1 :: rest1)
    else if b ≤ 239 then
      match rest with
      | [] => [replChar]
      | b1 :: rest1 =>
        if validSecond b b1 then
          match rest1 with
          | [] => [replChar]
          | b2 :: rest2 =>
            if isCont b2 then
              Char.ofNat ((b - 224) * 4096 + (b1 - 128) * 64 + (b2 - 128)) ::
                utf8LossyChars rest2
            else replChar :: utf8LossyChars (b2 :: rest2)
        else replChar :: utf8LossyChars (b1 :: rest1)
    else if b ≤ 244 then
      match rest with
      | [] => [replChar]
      | b1 :: rest1 =>
        if validSecond b b1 then
          match rest1 with
          | [] => [replChar]
          | b2 :: rest2 =>
            if isCont b2 then
              match rest2 with
              | [] => [replChar]
              | b3 :: rest3 =>
                if isCont b3 then
                  Char.ofNat ((b - 240) * 262144 + (b1 - 128) * 4096 +
                      (b2 - 128) * 64 + (b3 - 128)) :: utf8LossyChars rest3
                else replChar :: utf8LossyChars (b3 :: rest3)
            else replChar :: utf8LossyChars (b2 :: rest2)
        else replChar :: utf8LossyChars (b1 :: rest1)
    else replChar :: utf8LossyChars rest

/-- `String::from_utf8_lossy(slice).into_owned()`. -/
def utf8Lossy (l : List Nat) : String := String.mk (utf8LossyChars l)

mutual

/-- `to_value` from `src/from_hdf5.rs`: decode one byte window according
to a `TypeDescriptor`.  Scalar arms are the expansion of the
`native_value!` macro: `assert_eq!(slice.len(), size_of::<T>())` then an
unaligned native-order read cast `as` the 64-bit output type; the
`Enum` arm re-dispatches on the backing integer type; `Compound` asserts
the declared size then slices each field window (via `to_fields`);
`FixedArray` asserts `ty.size() * len` then decodes `slice.chunks`
elementwise (via `to_elems`, with the `chunks(0)` panic made explicit);
fixed strings assert the declared length then convert the whole window
with `String::from_utf8_lossy`; the three variable-length arms read the
indirection record at the head of the slice (8 or 16 bytes, undefined
if the slice is shorter) and resolve it through the engine. -/
def to_value (eng : Engine) (slice : List Nat) (dtype : TypeDescriptor) :
    Except DecodeError Value :=
  match dtype with
  | .integer s =>
    if slice.length = s.bytes then
      .ok (.int (toSigned (leRead slice) (8 * s.bytes)))
    else .error .sizeMismatch
  | .unsigned s =>
    if slice.length = s.bytes then
      .ok (.int (if s = .U8 then toSigned (leRead slice) 64 else (leRead slice : Int)))
    else .error .sizeMismatch
  | .float .U4 =>
    if slice.length = 4 then .ok (.float (f32ToF64Bits (leRead slice)))
    else .error .sizeMismatch
  | .float .U8 =>
    if slice.length = 8 then .ok (.float (leRead slice))
    else .error .sizeMismatch
  | .boolean =>
    match slice with
    | [b] =>
      if b = 0 then .ok (.bool false)
      else if b = 1 then .ok (.bool true)
      else .error .undefinedBehavior
    | _ => .error .sizeMismatch
  | .enum ⟨sz, sgn, _⟩ =>
    if sgn then to_value eng slice (.integer sz)
    else to_value eng slice (.unsigned sz)
  | .compound fields size =>
    if slice.length = size then (to_fields eng slice fields).map Value.record
    else .error .sizeMismatch
  | .fixedArray ty len =>
    if slice.length = ty.size * len then
      if ty.size = 0 then .error .panicked
      else (to_elems eng ty (chunksList ty.size slice)).map Value.list
    else .error .sizeMismatch
  | .fixedAscii len =>
    if slice.length = len then .ok (.string (utf8Lossy slice))
    else .error .sizeMismatch
  | .fixedUnicode len =>
    if slice.length = len then .ok (.string (utf8Lossy slice))
    else .error .sizeMismatch
  | .varLenArray ty =>
    if 16 ≤ slice.length then
      match eng.resolveVarLenArray (slice.take 16) with
      | some payload =>
        if ty.size = 0 then .error .panicked
        else (to_elems eng ty (chunksList ty.size payload)).map Value.list
      | none => .error .undefinedBehavior
    else .error .undefinedBehavior
  | .varLenAscii =>
    if 8 ≤ slice.length then
      match eng.resolveVarLenAscii (slice.take 8) with
      | some s => .ok (.string s)
      | none => .error .undefinedBehavior
    else .error .undefinedBehavior
  | .varLenUnicode =>
    if 8 ≤ slice.length then
      match eng.resolveVarLenUnicode (slice.take 8) with
      | some s => .ok (.string s)
      | none => .error .undefinedBehavior
    else .error .undefinedBehavior
termination_by (sizeOf dtype, 0)

/-- The `Compound` loop of `to_value`: for each field in declared order,
push the field name and the decode of `&slice[offset .. offset +
field.ty.size()]` (the slice indexing panics when the window exceeds the
buffer; a decode error aborts the loop). -/
def to_fields (eng : Engine) (slice : List Nat)
    (fields : List (String × Nat × TypeDescriptor)) :
    Except DecodeError (List (String × Value)) :=
  match fields with
  | [] => .ok []
  | (name, off, fty) :: fs =>
    if off + fty.size ≤ slice.length then
      match to_value eng (extractWindow slice off fty.size) fty with
      | .ok v => (to_fields eng slice fs).map (fun vs => (name, v) :: vs)
      | .error e => .error e
    else .error .panicked
termination_by (sizeOf fields, 0)

/-- The elementwise decode shared by the `FixedArray` and `VarLenArray`
arms (and by `to_list`): decode each chunk in order, failing on the
first error. -/
def to_elems (eng : Engine) (ty : TypeDescriptor) (chunks : List (List Nat)) :
    Except DecodeError (List Value) :=
  match chunks with
  | [] => .ok []
  | c :: cs =>
    match to_value eng c ty with
    | .ok v => (to_elems eng ty cs).map (fun vs => v :: vs)
    | .error e => .error e
termination_by (sizeOf ty, chunks.length)

end

/-- The engine's read-only view of a dataset, as consumed by `to_list`:
`name` is what `Object::name` returns (an absolute path such as "/x" or
"/g/y"), `dtype` is `dataset.dtype()?.to_descriptor()?`, `size` is
`Dataset::size` (the element count) and `rawBytes` are the bytes
materialised by `read_raw_bytes` (`src/hdf5_ext.rs`), already in native
byte order. -/
structure DatasetNode where
  name : String
  dtype : TypeDescriptor
  size : Nat
  rawBytes : List Nat

/-- The engine's read-only view of a group: its `Object::name`, its
child datasets in the engine's enumeration order (`Group::datasets`)
and its child subgroups in the engine's enumeration order
(`Group::groups`). -/
inductive GroupNode where
  | mk (name : String) (datasets : List DatasetNode) (subgroups : List GroupNode)

/-- The `Object::name` of a group node. -/
def GroupNode.name : GroupNode → String
  | .mk n _ _ => n

/-- `strip_name` from `src/from_hdf5.rs`: `name.strip_prefix('/')`
removes one leading '/' character when present, otherwise returns the
name unchanged (written on the character list so it evaluates). -/
def strip_name (name : String) : String :=
  match name.data with
  | '/' :: rest => String.mk rest
  | _ => name

/-- `to_list` from `src/from_hdf5.rs`: split the dataset's native bytes
into `dtype.size()`-wide chunks (`chunks(0)` panics), decode each via
`to_value`, then `assert_eq!(vals.len(), dataset.size())` and wrap as a
`List`. -/
def to_list (eng : Engine) (ds : DatasetNode) : Except DecodeError Value :=
  if ds.dtype.size = 0 then .error .panicked
  else
    match to_elems eng ds.dtype (chunksList ds.dtype.size ds.rawBytes) with
    | .ok vals =>
      if vals.length = ds.size then .ok (.list vals) else .error .countMismatch
    | .error e => .error e

/-- The dataset loop of `to_record`: one `(strip_name(ds.name()),
to_list(ds))` field per child dataset, in enumeration order, aborting on
the first error. -/
def to_record_datasets (eng : Engine) (dss : List DatasetNode) :
    Except DecodeError (List (String × Value)) :=
  match dss with
  | [] => .ok []
  | ds :: rest =>
    match to_list eng ds with
    | .ok v =>
      (to_record_datasets eng rest).map (fun vs => (strip_name ds.name, v) :: vs)
    | .error e => .error e

mutual

/-- `to_record` from `src/from_hdf5.rs`: build a `Record` whose fields
are the child datasets first (via `to_list`), then the child subgroups
(via recursive `to_record`), each named by `strip_name` of its
`Object::name`. -/
def to_record (eng : Engine) (g : GroupNode) : Except DecodeError Value :=
  match g with
  | .mk _ dss gs =>
    match to_record_datasets eng dss with
    | .ok dvals =>
      match to_record_groups eng gs with
      | .ok gvals => .ok (.record (dvals ++ gvals))
      | .error e => .error e
    | .error e => .error e
termination_by sizeOf g

/-- The subgroup loop of `to_record`: one `(strip_name(g.name()),
to_record(g))` field per child subgroup, in enumeration order, aborting
on the first error. -/
def to_record_groups (eng : Engine) (gs : List GroupNode) :
    Except DecodeError (List (String × Value)) :=
  match gs with
  | [] => .ok []
  | g :: rest =>
    match to_record eng g with
    | .ok v =>
      (to_record_groups eng rest).map (fun vs => (strip_name g.name, v) :: vs)
    | .error e => .error e
termination_by sizeOf gs

end

/-- A labeled, user-facing error (`nu_protocol::LabeledError` /
`nu_plugin::LabeledError`): an optional label and a message; the span
attached by the source carries no information here and is omitted.
`LabeledError::new(msg)` corresponds to `label := none`. -/
structure LabeledError where
  label : Option String
  msg : String
deriving DecidableEq, Repr

/-- The outcome space of the command entry point: a labeled error
returned to the host, or a panic (`unreachable!`). -/
inductive RunError where
  | labeled (e : LabeledError)
  | panicked
deriving DecidableEq, Repr

/-- The top-level rendering of `Value::get_type()` used in the
"requires binary input" message (container element types are not needed
by any claim and are rendered shallowly). -/
def Value.typeName : Value → String
  | .int _ => "int"
  | .float _ => "float"
  | .bool _ => "bool"
  | .string _ => "string"
  | .binary _ => "binary"
  | .list _ => "list<any>"
  | .record _ => "record"

/-- `nu_protocol::PipelineData`, as matched by `run`:
`value` carries an opaque metadata token; `byteStream` is modelled by
the result of its `into_value()` collection together with its metadata;
`listStream`'s payload is irrelevant to `run` and is left opaque. -/
inductive PipelineData where
  | empty
  | value (v : Value) (meta : Option Nat)
  | listStream (id : Nat) (meta : Option Nat)
  | byteStream (collect : Except LabeledError Value) (meta : Option Nat)

/-- `run` from `src/from_hdf5.rs`, parameterised by the container
decoder `dec` (`from_hdf5_bytes`, i.e. the engine `open` followed by
`to_record` on the root; its error is stringified by
`LabeledError::new(e.to_string())`).  `Empty` passes through; a binary
`Value` is decoded; any other `Value` is rejected with a labeled
error; a list stream is rejected; a byte stream is collected and must
yield binary (`unreachable!` otherwise). -/
def run (dec : List Nat → Except String Value) :
    PipelineData → Except RunError PipelineData
  | .empty => .ok .empty
  | .value v meta =>
    match v with
    | .binary val =>
      match dec val with
      | .ok value => .ok (.value value meta)
      | .error e => .error (.labeled ⟨none, e⟩)
    | v => .error (.labeled ⟨none, "requires binary input, got " ++ v.typeName⟩)
  | .listStream _ _ => .error (.labeled ⟨none, "unsupported list stream"⟩)
  | .byteStream collect meta =>
    match collect with
    | .error e => .error (.labeled e)
    | .ok v =>
      match v with
      | .binary val =>
        match dec val with
        | .ok value => .ok (.value value meta)
        | .error e => .error (.labeled ⟨none, e⟩)
      | _ => .error .panicked

/-- `Plugin::run` from `src/main.rs` (the historical `&Value`-based
plugin interface), parameterised by the container decoder: binary input
is decoded (errors labeled "HDF5 error"), everything else is rejected
with the label "Expected binary from pipeline". -/
def plugin_run (dec : List Nat → Except String Value) (input : Value) :
    Except LabeledError Value :=
  match input with
  | .binary val =>
    match dec val with
    | .ok v => .ok v
    | .error e => .error ⟨some "HDF5 error", e⟩
  | v =>
    .error ⟨some "Expected binary from pipeline",
      "requires binary input, got " ++ v.typeName⟩

/-- The spec's description of the Compound arm, written independently of
the source loop: "for each field in declared order, slice
`[offset, offset+fieldType.byteSize())` out of the compound buffer and
decode recursively; assemble ... preserving field declaration order and
exact field names". -/
def decodeCompoundSpec (eng : Engine) (slice : List Nat)
    (fields : List (String × Nat × TypeDescriptor)) :
    Except DecodeError (List (String × Value)) :=
  fields.mapM fun f =>
    (to_value eng (extractWindow slice f.2.1 f.2.2.size) f.2.2).map fun v => (f.1, v)

/-- An engine whose heap resolves every variable-length string
indirection record to the text "ok" (a legitimate engine state: the
record's pointer is valid). -/
def c1Engine : Engine where
  resolveVarLenArray := fun _ => none
  resolveVarLenAscii := fun _ => some "ok"
  resolveVarLenUnicode := fun _ => none

/-- The compound descriptor of the spec's round-trip property:
fields `[("a", offset 0, Unsigned(4)), ("b", offset 4, Float(8))]`,
total size 12. -/
def c4Desc : TypeDescriptor :=
  .compound [("a", 0, .unsigned .U4), ("b", 4, .float .U8)] 12

/-- A 12-byte buffer encoding `a = 7` (u32) and `b = 3.5` (f64,
bit pattern 0x400C000000000000), little-endian. -/
def c4Slice : List Nat := [7, 0, 0, 0, 0, 0, 0, 0, 0, 0, 0x0C, 0x40]

/-- Dataset "y" of the spec's nested-group property: one Float(8)
element 3.14 (bit pattern 0x40091EB851EB851F); its `Object::name` is the
absolute path "/g/y". -/
def c3y : DatasetNode :=
  ⟨"/g/y", .float .U8, 1, [0x1F, 0x85, 0xEB, 0x51, 0xB8, 0x1E, 0x09, 0x40]⟩

/-- Subgroup "g" of the nested-group property, holding dataset "y". -/
def c3g : GroupNode := .mk "/g" [c3y] []

/-- Dataset "x" of the nested-group property: three Unsigned(1)
elements `[10, 20, 30]`. -/
def c3x : DatasetNode := ⟨"/x", .unsigned .U1, 3, [10, 20, 30]⟩

/-- The root group of the nested-group property: dataset "x" and
subgroup "g". -/
def c3root : GroupNode := .mk "/" [c3x] [c3g]

theorem to_elems_eq_mapM (eng : Engine) (ty : TypeDescriptor)
    (chunks : List (List Nat)) :
    to_elems eng ty chunks = chunks.mapM fun c => to_value eng c ty := by
  induction chunks with
  | nil =>
    simp only [to_elems]
    rfl
  | cons c cs ih =>
    rw [List.mapM_cons]
    simp only [to_elems, ih]
    cases to_value eng c ty with
    | ok v =>
      cases cs.mapM (fun c => to_value eng c ty) <;>
        simp [Except.map, Except.bind, Except.pure, Bind.bind, Pure.pure]
    | error e => simp [Except.map, Except.bind, Bind.bind]

theorem chunksList_flatten (n : Nat) (hn : 0 < n) (l : List Nat) :
    (chunksList n l).flatten = l := by
  induction l using chunksList.induct n with
  | case1 => simp [chunksList]
  | case2 b rest ih =>
    have hm : max n 1 = n := by omega
    rw [hm] at ih
    simp [chunksList, hm, ih, List.take_append_drop]

theorem chunksList_length (n : Nat) (hn : 0 < n) (l : List Nat) :
    ∀ len, l.length = n * len → (chunksList n l).length = len := by
  induction l using chunksList.induct n with
  | case1 =>
    intro len hl
    simp only [List.length_nil] at hl
    have hz : len = 0 := by
      rcases Nat.mul_eq_zero.mp hl.symm with h | h
      · omega
      · exact h
    simp [chunksList, hz]
  | case2 b rest ih =>
    intro len hl
    have hm : max n 1 = n := by omega
    rw [hm] at ih
    obtain ⟨k, rfl⟩ : ∃ k, len = k + 1 := by
      refine ⟨len - 1, ?_⟩
      rcases Nat.eq_zero_or_pos len with h | h
      · subst h
        simp at hl
      · omega
    rw [Nat.mul_succ] at hl
    simp only [List.length_cons] at hl
    have hdl : (List.drop n (b :: rest)).length = n * k := by
      simp only [List.length_drop, List.length_cons]
      omega
    simp only [chunksList, hm, List.length_cons]
    rw [ih k hdl]

theorem chunksList_chunk_length (n : Nat) (hn : 0 < n) (l : List Nat) :
    ∀ len, l.length = n * len → ∀ c ∈ chunksList n l, c.length = n := by
  induction l using chunksList.induct n with
  | case1 => intro len hl c hc; simp [chunksList] at hc
  | case2 b rest ih =>
    intro len hl
    have hm : max n 1 = n := by omega
    rw [hm] at ih
    obtain ⟨k, rfl⟩ : ∃ k, len = k + 1 := by
      refine ⟨len - 1, ?_⟩
      rcases Nat.eq_zero_or_pos len with h | h
      · subst h
        simp at hl
      · omega
    rw [Nat.mul_succ] at hl
    simp only [List.length_cons] at hl
    have hdl : (List.drop n (b :: rest)).length = n * k := by
      simp only [List.length_drop, List.length_cons]
      omega
    intro c hc
    simp only [chunksList, hm, List.mem_cons] at hc
    rcases hc with rfl | hc
    · simp only [List.length_take, List.length_cons]
      omega
    · exact ih k hdl c hc

theorem to_fields_eq_spec (eng : Engine) (slice : List Nat)
    (fields : List (String × Nat × TypeDescriptor))
    (hb : ∀ f ∈ fields, f.2.1 + f.2.2.size ≤ slice.length) :
    to_fields eng slice fields = decodeCompoundSpec eng slice fields := by
  induction fields with
  | nil =>
    simp only [to_fields, decodeCompoundSpec]
    rfl
  | cons f fs ih =>
    obtain ⟨name, off, fty⟩ := f
    have h1 : off + fty.size ≤ slice.length := by
      have h2 := hb (name, off, fty) (List.mem_cons_self _ _)
      simpa using h2
    have ih2 := ih fun g hg => hb g (List.mem_cons_of_mem _ hg)
    simp only [decodeCompoundSpec] at ih2 ⊢
    rw [List.mapM_cons]
    simp only [to_fields]
    rw [if_pos h1]
    cases hv : to_value eng (extractWindow slice off fty.size) fty with
    | ok v =>
      rw [ih2]
      cases fs.mapM
          (fun f =>
            (to_value eng (extractWindow slice f.2.1 f.2.2.size) f.2.2).map
              fun v => (f.1, v)) <;>
        simp [Except.map, Except.bind, Except.pure, Bind.bind, Pure.pure]
    | error e => simp [Except.map, Except.bind, Bind.bind]

theorem utf8LossyChars_ascii (l : List Nat) (h : ∀ b ∈ l, b < 128) :
    utf8LossyChars l = l.map Char.ofNat := by
  induction l with
  | nil => simp [utf8LossyChars]
  | cons b rest ih =>
    have hb : b < 128 := h b (List.mem_cons_self _ _)
    rw [utf8LossyChars.eq_def]
    simp [hb, ih fun x hx => h x (List.mem_cons_of_mem _ hx)]

/-- C6: for every width, signedness flag and byte slice, decoding an
`Enum` produces exactly the result of decoding `Integer`/`Unsigned` of
the same width per the signedness flag, over the identical slice, and
the symbolic member table is never consulted (the result is the same
for any two member tables). -/
theorem c6_enum_redispatch (eng : Engine) (slice : List Nat) (sz : IntSize)
    (sgn : Bool) (ms ms' : List EnumMember) :
    to_value eng slice (.enum ⟨sz, sgn, ms⟩)
        = to_value eng slice (if sgn then .integer sz else .unsigned sz)
      ∧ to_value eng slice (.enum ⟨sz, sgn, ms⟩)
        = to_value eng slice (.enum ⟨sz, sgn, ms'⟩) := by
  cases sgn <;> simp [to_value]

/-- C8: `to_value` and `to_record` are deterministic — equal inputs
(engine, slice, descriptor / group) give structurally equal result
trees; the embedding is a pure function because the source carries no
mutable state between calls. -/
theorem c8_deterministic (eng : Engine) (s1 s2 : List Nat)
    (d1 d2 : TypeDescriptor) (g1 g2 : GroupNode)
    (hs : s1 = s2) (hd : d1 = d2) (hg : g1 = g2) :
    to_value eng s1 d1 = to_value eng s2 d2
      ∧ to_record eng g1 = to_record eng g2 := by
  subst hs
  subst hd
  subst hg
  exact ⟨rfl, rfl⟩

/-- Witness for C8 at a concrete input. -/
theorem c8_deterministic_witness :
    to_value defaultEngine [1] .boolean = to_value defaultEngine [1] .boolean
      ∧ to_record defaultEngine (.mk "/" [] [])
        = to_record defaultEngine (.mk "/" [] []) :=
  c8_deterministic defaultEngine [1] [1] .boolean .boolean
    (.mk "/" [] []) (.mk "/" [] []) rfl rfl rfl

/-- C10: an `Empty` pipeline input passes through `run` unchanged and
successfully, for every decoder (so the container is never opened and
the decoder never invoked). -/
theorem c10_empty_passthrough (dec : List Nat → Except String Value) :
    run dec PipelineData.empty = .ok PipelineData.empty := rfl

/-- C9: a non-binary pipeline `Value` is rejected by both entry points
with a labeled error whose message names the offending type; the result
does not depend on the decoder (it is never invoked) and is a returned
error, not a panic. -/
theorem c9_non_binary_rejected (dec : List Nat → Except String Value)
    (v : Value) (meta : Option Nat) (h : ∀ b, v ≠ Value.binary b) :
    run dec (.value v meta)
        = .error (.labeled ⟨none, "requires binary input, got " ++ v.typeName⟩)
      ∧ plugin_run dec v
        = .error ⟨some "Expected binary from pipeline",
            "requires binary input, got " ++ v.typeName⟩ := by
  cases v with
  | binary val => exact absurd rfl (h val)
  | _ => exact ⟨rfl, rfl⟩

/-- Witness for C9 at the concrete non-binary input `Value::Int(3)`. -/
theorem c9_non_binary_rejected_witness :
    run (fun _ => .ok (.int 0)) (.value (.int 3) none)
        = .error (.labeled ⟨none, "requires binary input, got "
            ++ (Value.int 3).typeName⟩)
      ∧ plugin_run (fun _ => .ok (.int 0)) (.int 3)
        = .error ⟨some "Expected binary from pipeline",
            "requires binary input, got " ++ (Value.int 3).typeName⟩ :=
  c9_non_binary_rejected (fun _ => .ok (.int 0)) (.int 3) none
    (fun b => by simp)

/-- C1 (amended): for every non-variable-length `TypeDescriptor` and
every slice whose length differs from the declared byte size, `to_value`
fails with the size-mismatch assertion and produces no partial value.
The three variable-length variants perform no such length check (see the
counterexample). -/
theorem c1_fixed_size_mismatch (eng : Engine) (slice : List Nat)
    (dtype : TypeDescriptor) (hv : dtype.isVarLen = false)
    (hlen : slice.length ≠ dtype.size) :
    to_value eng slice dtype = .error .sizeMismatch := by
  cases dtype with
  | integer s =>
    simp [TypeDescriptor.size] at hlen
    simp [to_value, hlen]
  | unsigned s =>
    simp [TypeDescriptor.size] at hlen
    simp [to_value, hlen]
  | float s =>
    cases s <;> simp [TypeDescriptor.size, FloatSize.bytes] at hlen <;>
      simp [to_value, hlen]
  | boolean =>
    simp [TypeDescriptor.size] at hlen
    rcases slice with _ | ⟨b, _ | ⟨b2, rest⟩⟩
    · simp [to_value]
    · simp at hlen
    · simp [to_value]
  | enum ty =>
    obtain ⟨sz, sgn, ms⟩ := ty
    simp [TypeDescriptor.size] at hlen
    cases sgn <;> simp [to_value, hlen]
  | compound fields size =>
    simp [TypeDescriptor.size] at hlen
    simp [to_value, hlen]
  | fixedArray ty len =>
    simp [TypeDescriptor.size] at hlen
    simp [to_value, hlen]
  | fixedAscii len =>
    simp [TypeDescriptor.size] at hlen
    simp [to_value, hlen]
  | fixedUnicode len =>
    simp [TypeDescriptor.size] at hlen
    simp [to_value, hlen]
  | varLenArray ty => simp [TypeDescriptor.isVarLen] at hv
  | varLenAscii => simp [TypeDescriptor.isVarLen] at hv
  | varLenUnicode => simp [TypeDescriptor.isVarLen] at hv

/-- Witness for C1 at a concrete input: a 3-byte slice decoded as a
4-byte unsigned integer fails with the size mismatch. -/
theorem c1_fixed_size_mismatch_witness :
    to_value defaultEngine [1, 2, 3] (.unsigned .U4)
      = .error .sizeMismatch :=
  c1_fixed_size_mismatch defaultEngine [1, 2, 3] (.unsigned .U4)
    rfl (by simp [TypeDescriptor.size, IntSize.bytes])

/-- Counterexample to C1 as stated: a `VarLenAscii` descriptor has
declared size 8, yet a 9-byte slice is decoded without any size check —
the code reads the 8-byte indirection record at the head of the slice
and resolves it, succeeding rather than failing with a size mismatch. -/
theorem c1_counterexample :
    (List.replicate 9 0).length ≠ TypeDescriptor.varLenAscii.size
      ∧ to_value c1Engine (List.replicate 9 0) .varLenAscii
        = .ok (.string "ok") := by
  constructor
  · simp [TypeDescriptor.size]
  · simp [to_value, c1Engine]

/-- C2 (amended): for every scalar descriptor and every slice of exactly
the declared byte size, `to_value` succeeds and returns the slice
reinterpreted under native (little-endian) byte order — signed integers
sign-extended to 64 bits, unsigned integers zero-extended (`u64`
bit-preservingly wrapped into `i64`), floats as IEEE-754 values widened
to binary64 — except that for `Boolean` the single byte must be 0 or 1
(any other byte is an invalid `bool` and undefined behaviour in the
source, modelled as a failing decode; see the counterexample). -/
theorem c2_scalar_reinterpretation (eng : Engine) :
    (∀ (s : IntSize) (slice : List Nat), slice.length = s.bytes →
        to_value eng slice (.integer s)
          = .ok (.int (toSigned (leRead slice) (8 * s.bytes))))
      ∧ (∀ (s : IntSize) (slice : List Nat), slice.length = s.bytes →
          s ≠ .U8 →
          to_value eng slice (.unsigned s) = .ok (.int (leRead slice)))
      ∧ (∀ slice : List Nat, slice.length = 8 →
          to_value eng slice (.unsigned .U8)
            = .ok (.int (toSigned (leRead slice) 64)))
      ∧ (∀ slice : List Nat, slice.length = 4 →
          to_value eng slice (.float .U4)
            = .ok (.float (f32ToF64Bits (leRead slice))))
      ∧ (∀ slice : List Nat, slice.length = 8 →
          to_value eng slice (.float .U8) = .ok (.float (leRead slice)))
      ∧ (∀ b : Nat, b ≤ 1 →
          to_value eng [b] .boolean = .ok (.bool (b == 1))) := by
  refine ⟨?_, ?_, ?_, ?_, ?_, ?_⟩
  · intro s slice h
    simp [to_value, h]
  · intro s slice h hne
    simp [to_value, h, hne]
  · intro slice h
    simp [to_value, IntSize.bytes, h]
  · intro slice h
    simp [to_value, h]
  · intro slice h
    simp [to_value, h]
  · intro b hb
    interval_cases b <;> simp [to_value]

/-- Witness for C2 at concrete inputs: a little-endian u32, a negative
i8, the u64 bit-pattern wrap, and a true boolean. -/
theorem c2_scalar_reinterpretation_witness :
    to_value defaultEngine [7, 0, 0, 0] (.unsigned .U4) = .ok (.int 7)
      ∧ to_value defaultEngine [255] (.integer .U1) = .ok (.int (-1))
      ∧ to_value defaultEngine [255, 255, 255, 255, 255, 255, 255, 255]
          (.unsigned .U8) = .ok (.int (-1))
      ∧ to_value defaultEngine [1] .boolean = .ok (.bool true) := by
  have h := c2_scalar_reinterpretation defaultEngine
  refine ⟨?_, ?_, ?_, ?_⟩
  · have h1 := h.2.1 .U4 [7, 0, 0, 0] rfl (by simp)
    have e : leRead [7, 0, 0, 0] = 7 := by decide
    rw [e] at h1
    exact h1
  · have h1 := h.1 .U1 [255] rfl
    have e : toSigned (leRead [255]) (8 * IntSize.U1.bytes) = (-1 : Int) := by
      decide
    rw [e] at h1
    exact h1
  · have h1 := h.2.2.1 [255, 255, 255, 255, 255, 255, 255, 255] rfl
    have e : toSigned (leRead [255, 255, 255, 255, 255, 255, 255, 255]) 64
        = (-1 : Int) := by decide
    rw [e] at h1
    exact h1
  · have h1 := h.2.2.2.2.2 1 (by decide)
    simpa using h1

/-- Counterexample to C2 as stated: decoding `Boolean` over the 1-byte
slice `[2]` does not succeed — byte 2 is not a valid Rust `bool`, so the
source's `ptr::read_unaligned::<bool>` is undefined behaviour, not a
successful decode. -/
theorem c2_counterexample :
    to_value defaultEngine [2] .boolean = .error .undefinedBehavior := by
  simp [to_value]

/-- C4: compound decode slices each declared field window
`[offset, offset + fieldType.size())`, decodes it recursively in
declared order, and assembles a record preserving order and names
(equality with the spec-side `decodeCompoundSpec`); the spec's
round-trip example decodes to `{a: 7, b: 3.5}` in that order. -/
theorem c4_compound (eng : Engine)
    (fields : List (String × Nat × TypeDescriptor)) (size : Nat)
    (slice : List Nat) (hlen : slice.length = size)
    (hb : ∀ f ∈ fields, f.2.1 + f.2.2.size ≤ size) :
    to_value eng slice (.compound fields size)
        = (decodeCompoundSpec eng slice fields).map Value.record
      ∧ to_value defaultEngine c4Slice c4Desc
        = .ok (.record [("a", .int 7), ("b", .float 0x400C000000000000)]) := by
  constructor
  · have hb2 : ∀ f ∈ fields, f.2.1 + f.2.2.size ≤ slice.length := by
      intro f hf
      rw [hlen]
      exact hb f hf
    rw [← to_fields_eq_spec eng slice fields hb2]
    simp [to_value, hlen]
  · simp [c4Desc, c4Slice, to_value, to_fields, extractWindow, leRead,
      TypeDescriptor.size, IntSize.bytes, FloatSize.bytes, toSigned, Except.map]

/-- Witness for C4: the general compound equation instantiated at the
spec's round-trip example. -/
theorem c4_compound_witness :
    to_value defaultEngine c4Slice c4Desc
      = .ok (.record [("a", .int 7), ("b", .float 0x400C000000000000)]) :=
  (c4_compound defaultEngine [("a", 0, .unsigned .U4), ("b", 4, .float .U8)]
    12 c4Slice rfl (by decide)).2

/-- C5 (amended): for a `FixedArray` whose element type has nonzero byte
size and a slice of exactly `count * elementType.size()` bytes, decode
splits the slice into `count` equal consecutive chunks whose
concatenation is the slice, decodes each recursively in order, and
returns the `List` of the results; `FixedArray(Unsigned(1), 4)` over
`[1,2,3,4]` yields `List([1,2,3,4])`.  When the element size is zero
the source panics in `slice::chunks` instead (see the counterexample). -/
theorem c5_fixed_array (eng : Engine) (ty : TypeDescriptor) (len : Nat)
    (slice : List Nat) (hsz : 0 < ty.size)
    (hlen : slice.length = ty.size * len) :
    to_value eng slice (.fixedArray ty len)
        = ((chunksList ty.size slice).mapM fun c => to_value eng c ty).map
            Value.list
      ∧ (chunksList ty.size slice).length = len
      ∧ (∀ c ∈ chunksList ty.size slice, c.length = ty.size)
      ∧ (chunksList ty.size slice).flatten = slice
      ∧ to_value defaultEngine [1, 2, 3, 4] (.fixedArray (.unsigned .U1) 4)
        = .ok (.list [.int 1, .int 2, .int 3, .int 4]) := by
  have hne : ty.size ≠ 0 := Nat.pos_iff_ne_zero.mp hsz
  refine ⟨?_, chunksList_length _ hsz _ _ hlen,
    chunksList_chunk_length _ hsz _ _ hlen, chunksList_flatten _ hsz _, ?_⟩
  · rw [← to_elems_eq_mapM]
    simp [to_value, hlen, hne]
  · simp [to_value, to_elems, chunksList, TypeDescriptor.size,
      IntSize.bytes, leRead, Except.map]

/-- Witness for C5: the concrete `FixedArray(Unsigned(1), 4)` example. -/
theorem c5_fixed_array_witness :
    to_value defaultEngine [1, 2, 3, 4] (.fixedArray (.unsigned .U1) 4)
      = .ok (.list [.int 1, .int 2, .int 3, .int 4]) :=
  (c5_fixed_array defaultEngine (.unsigned .U1) 4 [1, 2, 3, 4]
    (by decide) rfl).2.2.2.2

/-- Counterexample to C5 as stated: for the element type
`FixedAscii(0)` (declared size 0) and the empty slice (whose length is
`0 * 1`), decode does not return a `List` — `slice.chunks(0)` panics. -/
theorem c5_counterexample :
    ([] : List Nat).length = (TypeDescriptor.fixedAscii 0).size * 1
      ∧ to_value defaultEngine [] (.fixedArray (.fixedAscii 0) 1)
        = .error .panicked := by
  constructor
  · simp [TypeDescriptor.size]
  · simp [to_value, TypeDescriptor.size]

/-- C7: a fixed string of declared length L over a slice of exactly L
bytes always succeeds, returning the lossy UTF-8 conversion of the full
window; on all-ASCII windows (in particular ones ending in NUL padding)
the conversion is the identity on bytes — nothing is trimmed. -/
theorem c7_fixed_string (eng : Engine) (len : Nat) (slice : List Nat)
    (hlen : slice.length = len) :
    to_value eng slice (.fixedAscii len) = .ok (.string (utf8Lossy slice))
      ∧ to_value eng slice (.fixedUnicode len)
        = .ok (.string (utf8Lossy slice))
      ∧ ((∀ b ∈ slice, b < 128) →
          utf8Lossy slice = String.mk (slice.map Char.ofNat)) := by
  refine ⟨by simp [to_value, hlen], by simp [to_value, hlen], ?_⟩
  intro h
  simp [utf8Lossy, utf8LossyChars_ascii slice h]

/-- Witness for C7: the 3-byte window "A\x00\x00" decodes to the 3-char
string with its trailing NULs intact. -/
theorem c7_fixed_string_witness :
    to_value defaultEngine [65, 0, 0] (.fixedAscii 3)
      = .ok (.string (String.mk [Char.ofNat 65, Char.ofNat 0, Char.ofNat 0]))
      := by
  have h := c7_fixed_string defaultEngine 3 [65, 0, 0] rfl
  have e : utf8Lossy [65, 0, 0]
      = String.mk [Char.ofNat 65, Char.ofNat 0, Char.ofNat 0] := by
    have h2 := h.2.2 (by decide)
    simpa using h2
  rw [← e]
  exact h.1

/-- C3: evaluation of `to_record` at the spec's nested-group input.
Datasets do precede subgroups and enumeration order is preserved, but
the inner record's field is named "g/y", not the leaf name "y": the
engine's `Object::name` returns the absolute path "/g/y" and
`strip_name` removes only the leading '/'. -/
theorem c3_nested_field_names :
    to_record defaultEngine c3root
      = .ok (.record [("x", .list [.int 10, .int 20, .int 30]),
          ("g", .record [("g/y", .list [.float 0x40091EB851EB851F])])]) := by
  have hx : strip_name "/x" = "x" := by decide
  have hg : strip_name "/g" = "g" := by decide
  have hy : strip_name "/g/y" = "g/y" := by decide
  simp [to_record, to_record_datasets, to_record_groups, to_list, to_elems,
    to_value, chunksList, c3root, c3x, c3g, c3y, hx, hg, hy, GroupNode.name,
    TypeDescriptor.size, IntSize.bytes, FloatSize.bytes, leRead, Except.map]
